import Mathlib

/-
Verification of the gemini-flow-ui chat client.

This file shallowly embeds the parts of the program that the specification
talks about:

* the suggestion extraction performed in MessageBubble.tsx (a scan for the
  in-band marker block, a JSON parse of the enclosed literal, and a
  hide-while-streaming rule for unclosed markers),
* the conversation state machine of App.tsx (send / stop / stream chunk /
  stream end / stream error / regenerate / edit), together with the seeded
  history of the adapter session from the Gemini service wrapper.

Strings are modelled as lists of characters where scanning is involved.
The JavaScript regex has its concrete leftmost-match, lazy-group semantics
spelled out as a recursive scanner; JSON.parse is embedded as a total,
fuel-driven parser of the JSON grammar (numbers are kept as their lexeme,
which is enough because no claim compares numeric values).
-/

namespace GeminiFlow

/-- Whitespace class used by the regex escapes and by String.trim in the
component; the marker handling only ever meets ASCII whitespace. -/
def wsChar (c : Char) : Bool :=
  c = ' ' || c = '\t' || c = '\n' || c = '\r' || c = '\x0b' || c = '\x0c'

/-- Whitespace accepted between JSON tokens (per the JSON grammar used by
JSON.parse). -/
def jsonWs (c : Char) : Bool :=
  c = ' ' || c = '\t' || c = '\n' || c = '\r'

/-- The literal the full suggestion regex starts with. -/
def tokenL : List Char := "<<<SUGGESTIONS:".data

/-- The opening token tested by the streaming branch and used by split. -/
def openTokL : List Char := "<<<SUGGESTIONS".data

/-- The closing delimiter of the marker block. -/
def gt3 : List Char := ['>', '>', '>']

/-- Result of JSON.parse, embedded.  Numbers keep their source lexeme. -/
inductive Json where
  | null
  | boolean (b : Bool)
  | num (lexeme : List Char)
  | str (s : List Char)
  | arr (elems : List Json)
  | obj (fields : List (List Char × Json))

/-- Hexadecimal digit value, for the \uXXXX string escape. -/
def hexVal (c : Char) : Option Nat :=
  if '0' ≤ c ∧ c ≤ '9' then some (c.toNat - '0'.toNat)
  else if 'a' ≤ c ∧ c ≤ 'f' then some (c.toNat - 'a'.toNat + 10)
  else if 'A' ≤ c ∧ c ≤ 'F' then some (c.toNat - 'A'.toNat + 10)
  else none

/-- Body of a JSON string after the opening quote: raw characters, the
escape sequences, and rejection of unescaped control characters. -/
def parseStrBody : Nat → List Char → Option (List Char × List Char)
  | 0, _ => none
  | _ + 1, [] => none
  | f + 1, c :: rest =>
    if c = '"' then some ([], rest)
    else if c = '\\' then
      match rest with
      | [] => none
      | e :: rest2 =>
        if e = '"' then (parseStrBody f rest2).map (fun pr => ('"' :: pr.1, pr.2))
        else if e = '\\' then (parseStrBody f rest2).map (fun pr => ('\\' :: pr.1, pr.2))
        else if e = '/' then (parseStrBody f rest2).map (fun pr => ('/' :: pr.1, pr.2))
        else if e = 'b' then (parseStrBody f rest2).map (fun pr => ('\x08' :: pr.1, pr.2))
        else if e = 'f' then (parseStrBody f rest2).map (fun pr => ('\x0c' :: pr.1, pr.2))
        else if e = 'n' then (parseStrBody f rest2).map (fun pr => ('\n' :: pr.1, pr.2))
        else if e = 'r' then (parseStrBody f rest2).map (fun pr => ('\r' :: pr.1, pr.2))
        else if e = 't' then (parseStrBody f rest2).map (fun pr => ('\t' :: pr.1, pr.2))
        else if e = 'u' then
          match rest2 with
          | a :: b :: c2 :: d :: rest3 =>
            match hexVal a, hexVal b, hexVal c2, hexVal d with
            | some x, some y, some z, some w =>
              (parseStrBody f rest3).map
                (fun pr => (Char.ofNat (((x * 16 + y) * 16 + z) * 16 + w) :: pr.1, pr.2))
            | _, _, _, _ => none
          | _ => none
        else none
    else if c.toNat < 32 then none
    else (parseStrBody f rest).map (fun pr => (c :: pr.1, pr.2))

/-- Longest leading run of decimal digits together with the remainder. -/
def digitRun (cs : List Char) : List Char × List Char :=
  (cs.takeWhile Char.isDigit, cs.dropWhile Char.isDigit)

/-- Integer part of a JSON number: a lone zero, or a nonzero digit
followed by digits. -/
def parseIntPart : List Char → Option (List Char × List Char)
  | [] => none
  | c :: rest =>
    if c = '0' then some (['0'], rest)
    else if c.isDigit then
      some (c :: (digitRun rest).1, (digitRun rest).2)
    else none

/-- Optional fraction part of a JSON number. -/
def parseFracPart (cs : List Char) : Option (List Char × List Char) :=
  match cs with
  | '.' :: rest =>
    if (digitRun rest).1.isEmpty then none
    else some ('.' :: (digitRun rest).1, (digitRun rest).2)
  | _ => some ([], cs)

/-- Optional exponent part of a JSON number. -/
def parseExpPart (cs : List Char) : Option (List Char × List Char) :=
  match cs with
  | c :: rest =>
    if c = 'e' ∨ c = 'E' then
      match rest with
      | s :: rest2 =>
        if s = '+' ∨ s = '-' then
          if (digitRun rest2).1.isEmpty then none
          else some (c :: s :: (digitRun rest2).1, (digitRun rest2).2)
        else if (digitRun rest).1.isEmpty then none
        else some (c :: (digitRun rest).1, (digitRun rest).2)
      | [] => none
    else some ([], c :: rest)
  | [] => some ([], [])

/-- A JSON number lexeme: optional sign, integer part, optional fraction
and exponent. -/
def parseNum (cs : List Char) : Option (List Char × List Char) :=
  let sgn : List Char × List Char :=
    match cs with
    | '-' :: r => (['-'], r)
    | _ => ([], cs)
  match parseIntPart sgn.2 with
  | none => none
  | some (ip, cs2) =>
    match parseFracPart cs2 with
    | none => none
    | some (fp, cs3) =>
      match parseExpPart cs3 with
      | none => none
      | some (ep, cs4) => some (sgn.1 ++ ip ++ fp ++ ep, cs4)

mutual

/-- A JSON value, preceded by optional whitespace. -/
def parseVal : Nat → List Char → Option (Json × List Char)
  | 0, _ => none
  | f + 1, cs0 =>
    let cs := cs0.dropWhile jsonWs
    match cs with
    | 'n' :: 'u' :: 'l' :: 'l' :: rest => some (.null, rest)
    | 't' :: 'r' :: 'u' :: 'e' :: rest => some (.boolean true, rest)
    | 'f' :: 'a' :: 'l' :: 's' :: 'e' :: rest => some (.boolean false, rest)
    | '"' :: rest =>
      match parseStrBody (rest.length + 1) rest with
      | some (s, r) => some (.str s, r)
      | none => none
    | '[' :: rest =>
      match parseArrTail f rest with
      | some (l, r) => some (.arr l, r)
      | none => none
    | '{' :: rest =>
      match parseObjTail f rest with
      | some (fs, r) => some (.obj fs, r)
      | none => none
    | _ =>
      match parseNum cs with
      | some (lex, r) => some (.num lex, r)
      | none => none

/-- Array elements after the opening bracket. -/
def parseArrTail : Nat → List Char → Option (List Json × List Char)
  | 0, _ => none
  | f + 1, cs0 =>
    let cs := cs0.dropWhile jsonWs
    match cs with
    | ']' :: r => some ([], r)
    | _ =>
      match parseVal f cs with
      | none => none
      | some (v, r1) =>
        match parseArrMore f r1 with
        | some (vs, r2) => some (v :: vs, r2)
        | none => none

/-- Continuation of an array: a comma and a value, or the closing bracket. -/
def parseArrMore : Nat → List Char → Option (List Json × List Char)
  | 0, _ => none
  | f + 1, cs0 =>
    let cs := cs0.dropWhile jsonWs
    match cs with
    | ']' :: r => some ([], r)
    | ',' :: r =>
      match parseVal f r with
      | none => none
      | some (v, r2) =>
        match parseArrMore f r2 with
        | some (vs, r3) => some (v :: vs, r3)
        | none => none
    | _ => none

/-- Object members after the opening brace. -/
def parseObjTail : Nat → List Char → Option (List (List Char × Json) × List Char)
  | 0, _ => none
  | f + 1, cs0 =>
    let cs := cs0.dropWhile jsonWs
    match cs with
    | '}' :: r => some ([], r)
    | '"' :: rest =>
      match parseStrBody (rest.length + 1) rest with
      | none => none
      | some (key, r1) =>
        match r1.dropWhile jsonWs with
        | ':' :: r2 =>
          match parseVal f r2 with
          | none => none
          | some (v, r3) =>
            match parseObjMore f r3 with
            | some (fs, r4) => some ((key, v) :: fs, r4)
            | none => none
        | _ => none
    | _ => none

/-- Continuation of an object: a comma and a member, or the closing brace. -/
def parseObjMore : Nat → List Char → Option (List (List Char × Json) × List Char)
  | 0, _ => none
  | f + 1, cs0 =>
    let cs := cs0.dropWhile jsonWs
    match cs with
    | '}' :: r => some ([], r)
    | ',' :: r =>
      match r.dropWhile jsonWs with
      | '"' :: rest =>
        match parseStrBody (rest.length + 1) rest with
        | none => none
        | some (key, r1) =>
          match r1.dropWhile jsonWs with
          | ':' :: r2 =>
            match parseVal f r2 with
            | none => none
            | some (v, r3) =>
              match parseObjMore f r3 with
              | some (fs, r4) => some ((key, v) :: fs, r4)
              | none => none
          | _ => none
      | _ => none
    | _ => none

end

/-- Embedding of JSON.parse: parse one value and require only whitespace
after it. -/
def jsonParse (cs : List Char) : Option Json :=
  match parseVal (2 * cs.length + 8) cs with
  | some (v, rest) => if (rest.dropWhile jsonWs).isEmpty then some v else none
  | none => none

/-- Test whether the closing part of the lazy group starts here: a closing
bracket, optional whitespace, then the three closing angle brackets. -/
def closeHere (cs : List Char) : Option Nat :=
  match cs with
  | [] => none
  | c :: rest =>
    if c = ']' then
      if gt3.isPrefixOf (rest.dropWhile wsChar) then
        some (rest.takeWhile wsChar).length
      else none
    else none

/-- Earliest position (lazy semantics) at which the group can close,
together with the length of the whitespace run before the closing
delimiter. -/
def findClose : List Char → Option (Nat × Nat)
  | [] => none
  | c :: rest =>
    match closeHere (c :: rest) with
    | some w => some (0, w)
    | none =>
      match findClose rest with
      | some (j, w) => some (j + 1, w)
      | none => none

/-- Attempt to match the full suggestion regex at the start of the input:
the literal token, greedy whitespace, the lazily matched bracketed group,
greedy whitespace, and the closing delimiter.  Returns the length of the
whole match and the group. -/
def matchHere (cs : List Char) : Option (Nat × List Char) :=
  if tokenL.isPrefixOf cs then
    let r1 := cs.drop tokenL.length
    let w1 := (r1.takeWhile wsChar).length
    match r1.dropWhile wsChar with
    | c :: body =>
      if c = '[' then
        match findClose body with
        | some (j, w2) =>
          some (tokenL.length + w1 + 1 + j + 1 + w2 + 3, '[' :: (body.take j ++ [']']))
        | none => none
      else none
    | [] => none
  else none

/-- Leftmost match of the suggestion regex: start index, match length and
group, when a match exists anywhere in the input. -/
def markerMatch : List Char → Option (Nat × Nat × List Char)
  | [] => none
  | c :: rest =>
    match matchHere (c :: rest) with
    | some (len, grp) => some (0, len, grp)
    | none =>
      match markerMatch rest with
      | some (i, len, grp) => some (i + 1, len, grp)
      | none => none

/-- Index of the first occurrence of a pattern, as String.indexOf and the
first-occurrence semantics of String.replace with a string argument. -/
def findOcc (pat : List Char) : List Char → Option Nat
  | [] => if pat.isPrefixOf ([] : List Char) then some 0 else none
  | c :: rest =>
    if pat.isPrefixOf (c :: rest) then some 0
    else
      match findOcc pat rest with
      | some i => some (i + 1)
      | none => none

/-- Removal of the first occurrence of a pattern, as String.replace with a
string search value and an empty replacement. -/
def removeFirst (cs pat : List Char) : List Char :=
  match findOcc pat cs with
  | some i => cs.take i ++ cs.drop (i + pat.length)
  | none => cs

/-- Whitespace trimming from both ends, as String.trim. -/
def trimL (cs : List Char) : List Char :=
  (((cs.dropWhile wsChar).reverse.dropWhile wsChar).reverse)

/-- Suggestion extraction from MessageBubble.tsx: for user messages the
content passes through; otherwise the full marker regex is tried, its
group handed to JSON.parse (a parse error restores the original text), and
while streaming an unclosed opening token truncates the display text at
the token and trims it. -/
def extract (content : String) (isUser : Bool) (streaming : Bool) : String × List Json :=
  if isUser then (content, [])
  else
    let cs := content.data
    match markerMatch cs with
    | some (i, len, grp) =>
      match jsonParse grp with
      | some v =>
        let m0 := (cs.drop i).take len
        let clean := trimL (removeFirst cs m0)
        match v with
        | .arr l => (String.mk clean, l)
        | _ => (String.mk clean, [])
      | none => (content, [])
    | none =>
      if streaming then
        match findOcc openTokL cs with
        | some q => (String.mk (trimL (cs.take q)), [])
        | none => (content, [])
      else (content, [])

/-- Modelled from the spec: the repository's types module (the Role
enumeration and the Message shape) is not among the provided sources; the
spec's data model gives Message = id, role (USER or MODEL), content,
timestamp, streaming flag, with time-based identifiers unique within a
session.  Identifiers and timestamps are drawn from an abstract counter. -/
inductive Role where
  | user
  | model
deriving DecidableEq

/-- A UI message as held in the App state. -/
structure Message where
  id : Nat
  role : Role
  content : String
  timestamp : Nat
  isStreaming : Bool
deriving DecidableEq

/-- One role/text pair of the history handed to GeminiService.startChat
(each history entry carries a single text part). -/
structure ChatEntry where
  role : Role
  text : String
deriving DecidableEq

/-- The mapping applied to UI messages when rebuilding the adapter
history in handleRegenerate and handleEdit. -/
def toEntry (m : Message) : ChatEntry :=
  { role := m.role, text := m.content }

/-- Local variables of one in-flight handleSendMessage invocation: the id
of its placeholder message, the text accumulated so far, and the text it
sent. -/
structure SendCtx where
  aiMessageId : Nat
  accumulated : String
  sentText : String
deriving DecidableEq

/-- The App component state: the message list, the loading flag, the
error banner, the stopGeneration ref, the seeded history of the current
adapter session, the in-flight send invocations in start order, and the
id counter. -/
structure AppState where
  messages : List Message
  isLoading : Bool
  error : Option String
  stopFlag : Bool
  session : List ChatEntry
  pending : List SendCtx
  nextId : Nat
deriving DecidableEq

/-- State after mount: no messages, a fresh session with no seed. -/
def init : AppState :=
  { messages := [], isLoading := false, error := none, stopFlag := false,
    session := [], pending := [], nextId := 0 }

/-- The error banner set in the catch branch of handleSendMessage. -/
def errBanner : String := "抱歉，遇到了一些问题，请稍后再试。"

/-- The failure marker substituted for an empty in-flight message. -/
def failText : String := "⚠️ 生成失败"

/-- List lookup by position, as a JavaScript array subscript. -/
def nth {α : Type} : List α → Nat → Option α
  | [], _ => none
  | x :: _, 0 => some x
  | _ :: xs, n + 1 => nth xs n

/-- In-place update at a position. -/
def setAt {α : Type} : List α → Nat → α → List α
  | [], _, _ => []
  | _ :: xs, 0, a => a :: xs
  | x :: xs, n + 1, a => x :: setAt xs n a

/-- Removal of the element at a position. -/
def removeAt {α : Type} : List α → Nat → List α
  | [], _ => []
  | _ :: xs, 0 => xs
  | x :: xs, n + 1 => x :: removeAt xs n

/-- Index of the first element satisfying a predicate, as
Array.prototype.findIndex (with none for -1). -/
def findIndex {α : Type} (p : α → Bool) : List α → Option Nat
  | [] => none
  | x :: xs =>
    if p x then some 0
    else
      match findIndex p xs with
      | some i => some (i + 1)
      | none => none

/-- The per-chunk state update of handleSendMessage: replace the content
of the last message, but only when the last message is this send's
placeholder. -/
def updateLast (aid : Nat) (acc : String) : List Message → List Message
  | [] => []
  | [m] => if m.id = aid then [{ m with content := acc }] else [m]
  | m :: m2 :: rest => m :: updateLast aid acc (m2 :: rest)

/-- The completion update of handleSendMessage: findIndex by id, then
clear the streaming flag of that one message. -/
def finishFirst (aid : Nat) : List Message → List Message
  | [] => []
  | m :: rest =>
    if m.id = aid then { m with isStreaming := false } :: rest
    else m :: finishFirst aid rest

/-- The catch-branch update of handleSendMessage: map over all messages,
clearing the streaming flag of the placeholder and substituting the
failure marker when its content is empty (the || of the source reads an
empty string as falsy). -/
def errorPatch (aid : Nat) (msgs : List Message) : List Message :=
  msgs.map fun m =>
    if m.id = aid then
      { m with isStreaming := false,
               content := if m.content = "" then failText else m.content }
    else m

/-- The synchronous prefix of handleSendMessage: reset the stop ref and
the banner, raise the loading flag, append the user message unless
regenerating, append the streaming placeholder, and register the
in-flight invocation.  Ids mirror Date.now and Date.now + 1. -/
def sendStart (text : String) (isRegen : Bool) (s : AppState) : AppState :=
  let uid := s.nextId
  let aid := s.nextId + 1
  let withUser :=
    if isRegen then s.messages
    else s.messages ++
      [{ id := uid, role := Role.user, content := text,
         timestamp := s.nextId, isStreaming := false }]
  { s with
    messages := withUser ++
      [{ id := aid, role := Role.model, content := "",
         timestamp := s.nextId, isStreaming := true }],
    isLoading := true, error := none, stopFlag := false,
    pending := s.pending ++ [{ aiMessageId := aid, accumulated := "", sentText := text }],
    nextId := s.nextId + 2 }

/-- Completion of one in-flight send (the code after the stream loop and
the finally block): clear the placeholder's streaming flag, lower the
loading flag, reset the stop ref, drop the invocation. -/
def finalizeStream (i : Nat) (ctx : SendCtx) (s : AppState) : AppState :=
  { s with messages := finishFirst ctx.aiMessageId s.messages,
           isLoading := false, stopFlag := false,
           pending := removeAt s.pending i }

/-- The operations of the conversation state machine.  send covers both
the input box and the suggestion chips (the chip handler calls
handleSendMessage directly); chunk, streamEnd and streamError are the
events of the in-flight stream at the given invocation index; stop is
handleStop; regenerate and edit are the corresponding handlers. -/
inductive Op where
  | send (text : String) (isRegen : Bool)
  | chunk (i : Nat) (s : String)
  | streamEnd (i : Nat)
  | streamError (i : Nat)
  | stop
  | regenerate
  | edit (mid : Nat) (text : String)
deriving DecidableEq

/-- One step of the machine, a direct transcription of the App.tsx
handlers.  A chunk arriving with the stop ref set is the observation
point of the cooperative cancellation: the loop breaks and the
finalization runs without applying the chunk. -/
def step (op : Op) (s : AppState) : AppState :=
  match op with
  | .send text isRegen => sendStart text isRegen s
  | .stop => if s.isLoading then { s with stopFlag := true } else s
  | .chunk i str =>
    match nth s.pending i with
    | none => s
    | some ctx =>
      if s.stopFlag then finalizeStream i ctx s
      else
        let acc := ctx.accumulated ++ str
        { s with messages := updateLast ctx.aiMessageId acc s.messages,
                 pending := setAt s.pending i { ctx with accumulated := acc } }
  | .streamEnd i =>
    match nth s.pending i with
    | none => s
    | some ctx => finalizeStream i ctx s
  | .streamError i =>
    match nth s.pending i with
    | none => s
    | some ctx =>
      { s with messages := errorPatch ctx.aiMessageId s.messages,
               error := some errBanner, isLoading := false, stopFlag := false,
               pending := removeAt s.pending i }
  | .regenerate =>
    if s.messages.isEmpty || s.isLoading then s
    else
      match nth s.messages (s.messages.length - 1) with
      | none => s
      | some lastMsg =>
        if lastMsg.role = Role.model then
          match (if 2 ≤ s.messages.length then nth s.messages (s.messages.length - 2) else none) with
          | some prevMsg =>
            if prevMsg.role = Role.user then
              sendStart prevMsg.content true
                { s with session := (s.messages.take (s.messages.length - 2)).map toEntry,
                         messages := s.messages.take (s.messages.length - 1) }
            else s
          | none => s
        else s
  | .edit mid text =>
    match findIndex (fun m => m.id == mid) s.messages with
    | none => s
    | some idx =>
      match nth s.messages idx with
      | none => s
      | some m =>
        if m.role = Role.user then
          sendStart text false
            { s with session := (s.messages.take idx).map toEntry,
                     messages := s.messages.take idx }
        else s

/-- The guarded machine of the amended streaming invariant: a send that
arrives while a send is in flight is not initiated (in the source only
the suggestion chips can violate this). -/
def gstep (op : Op) (s : AppState) : AppState :=
  match op with
  | .send _ _ => if s.isLoading then s else step op s
  | _ => step op s

/-- Run of the unguarded machine. -/
def runOps (ops : List Op) (s : AppState) : AppState :=
  ops.foldl (fun t op => step op t) s

/-- Run of the guarded machine. -/
def runG (ops : List Op) (s : AppState) : AppState :=
  ops.foldl (fun t op => gstep op t) s

/-- Operations whose sequences the streaming-flag invariant quantifies
over: sends, stream events and stops, but not edit or regenerate. -/
def isCore : Op → Bool
  | .regenerate => false
  | .edit _ _ => false
  | _ => true

/-- Number of messages whose streaming flag is set. -/
def streamCount (ms : List Message) : Nat :=
  (ms.filter (fun m => m.isStreaming)).length

/-- First message with the given id, as the findIndex-based lookups. -/
def firstById (aid : Nat) (ms : List Message) : Option Message :=
  ms.find? (fun m => m.id == aid)

/-- Inductive invariant of the guarded machine: ids are below the counter,
and either nothing is in flight and no message streams, or exactly one
invocation is in flight and the streaming messages are exactly its
placeholder, which sits last in the list. -/
def Inv (s : AppState) : Prop :=
  (∀ m ∈ s.messages, m.id < s.nextId) ∧
  ((s.pending = [] ∧ s.isLoading = false ∧ ∀ m ∈ s.messages, m.isStreaming = false) ∨
   (∃ ctx pre ph, s.pending = [ctx] ∧ s.isLoading = true ∧
      s.messages = pre ++ [ph] ∧ ph.isStreaming = true ∧ ph.id = ctx.aiMessageId ∧
      (∀ m ∈ pre, m.isStreaming = false) ∧ (∀ m ∈ pre, m.id ≠ ctx.aiMessageId)))


/-! Helper lemmas: list facts about the scanners and the state updates,
then the claim theorems. -/


theorem isPrefixOf_self_append (l t : List Char) : l.isPrefixOf (l ++ t) = true := by
  rw [List.isPrefixOf_iff_prefix]
  exact List.prefix_append l t

theorem isPrefixOf_of_append (a b x : List Char)
    (h : (a ++ b).isPrefixOf x = true) : a.isPrefixOf x = true := by
  rw [List.isPrefixOf_iff_prefix] at h ⊢
  exact ((List.prefix_append a b).trans h)

theorem takeWhile_ws_append (ws : List Char) (c : Char) (rest : List Char)
    (hws : ∀ x ∈ ws, wsChar x = true) (hc : wsChar c = false) :
    (ws ++ c :: rest).takeWhile wsChar = ws := by
  induction ws with
  | nil => simp [List.takeWhile, hc]
  | cons y ys ih =>
    have hy : wsChar y = true := hws y (by simp)
    simp only [List.cons_append, List.takeWhile, hy, List.append_eq]
    rw [ih (fun x hx => hws x (by simp [hx]))]

theorem dropWhile_ws_append (ws : List Char) (c : Char) (rest : List Char)
    (hws : ∀ x ∈ ws, wsChar x = true) (hc : wsChar c = false) :
    (ws ++ c :: rest).dropWhile wsChar = c :: rest := by
  induction ws with
  | nil => simp [List.dropWhile, hc]
  | cons y ys ih =>
    have hy : wsChar y = true := hws y (by simp)
    simp only [List.cons_append, List.dropWhile, hy]
    exact ih (fun x hx => hws x (by simp [hx]))

theorem closeHere_cons_ne (c : Char) (rest : List Char) (hc : ¬(c = ']')) :
    closeHere (c :: rest) = none := by
  simp [closeHere, hc]

theorem closeHere_at (ws2 tail : List Char) (hws2 : ∀ x ∈ ws2, wsChar x = true) :
    closeHere (']' :: (ws2 ++ ('>' :: '>' :: '>' :: tail))) = some ws2.length := by
  have hgt : wsChar '>' = false := by decide
  simp only [closeHere, if_pos rfl, dropWhile_ws_append ws2 '>' ('>' :: '>' :: tail) hws2 hgt,
    takeWhile_ws_append ws2 '>' ('>' :: '>' :: tail) hws2 hgt]
  have hpre : gt3.isPrefixOf ('>' :: '>' :: '>' :: tail) = true := by
    have : ('>' :: '>' :: '>' :: tail) = gt3 ++ tail := rfl
    rw [this]
    exact isPrefixOf_self_append gt3 tail
  simp [hpre]

theorem findClose_append (inner ws2 tail : List Char)
    (h4 : ']' ∉ inner) (hws2 : ∀ x ∈ ws2, wsChar x = true) :
    findClose (inner ++ ']' :: (ws2 ++ ('>' :: '>' :: '>' :: tail)))
      = some (inner.length, ws2.length) := by
  induction inner with
  | nil =>
    simp only [List.nil_append, findClose]
    rw [closeHere_at ws2 tail hws2]
    rfl
  | cons c cs ih =>
    have hc : ¬(c = ']') := by
      intro h
      exact h4 (by simp [h])
    have hcs : ']' ∉ cs := fun h => h4 (by simp [h])
    simp only [List.cons_append, findClose, List.append_eq]
    rw [closeHere_cons_ne c _ hc, ih hcs]
    simp



theorem matchHere_block (ws1 inner ws2 : List Char)
    (hws1 : ∀ x ∈ ws1, wsChar x = true) (hws2 : ∀ x ∈ ws2, wsChar x = true)
    (h4 : ']' ∉ inner) :
    matchHere (tokenL ++ (ws1 ++ '[' :: (inner ++ ']' :: (ws2 ++ gt3))))
      = some (tokenL.length + ws1.length + 1 + inner.length + 1 + ws2.length + 3,
              '[' :: (inner ++ [']'])) := by
  have hbr : wsChar '[' = false := by decide
  simp only [matchHere, isPrefixOf_self_append, if_pos, List.drop_left,
    takeWhile_ws_append ws1 '[' (inner ++ ']' :: (ws2 ++ gt3)) hws1 hbr,
    dropWhile_ws_append ws1 '[' (inner ++ ']' :: (ws2 ++ gt3)) hws1 hbr]
  have hfc : findClose (inner ++ ']' :: (ws2 ++ ('>' :: '>' :: '>' :: ([] : List Char))))
      = some (inner.length, ws2.length) := findClose_append inner ws2 [] h4 hws2
  have hgt : ws2 ++ gt3 = ws2 ++ ('>' :: '>' :: '>' :: ([] : List Char)) := rfl
  rw [hgt, hfc]
  simp [List.take_left]

theorem matchHere_none_of_not_tok (cs : List Char)
    (h : tokenL.isPrefixOf cs = false) : matchHere cs = none := by
  simp [matchHere, h]

theorem markerMatch_append (p X : List Char) (len : Nat) (grp : List Char)
    (hq : ∀ q, q < p.length → tokenL.isPrefixOf ((p ++ X).drop q) = false)
    (hm : matchHere X = some (len, grp)) :
    markerMatch (p ++ X) = some (p.length, len, grp) := by
  induction p with
  | nil =>
    cases X with
    | nil => simp [matchHere] at hm
    | cons c rest =>
      simp only [List.nil_append, markerMatch, hm]
      rfl
  | cons c p' ih =>
    have h0 : tokenL.isPrefixOf (c :: (p' ++ X)) = false := by
      have := hq 0 (by simp)
      simpa using this
    simp only [List.cons_append, markerMatch, List.append_eq,
      matchHere_none_of_not_tok _ h0]
    rw [ih (fun q hqlt => by simpa using hq (q + 1) (by simpa using hqlt))]
    simp

theorem findOcc_at (pat cs : List Char) (i : Nat) (h : findOcc pat cs = some i) :
    pat.isPrefixOf (cs.drop i) = true := by
  induction cs generalizing i with
  | nil =>
    simp only [findOcc] at h
    by_cases hp : pat.isPrefixOf ([] : List Char) = true
    · rw [if_pos hp] at h
      cases h
      simpa using hp
    · rw [if_neg hp] at h
      cases h
  | cons c rest ih =>
    simp only [findOcc] at h
    by_cases hp : pat.isPrefixOf (c :: rest) = true
    · rw [if_pos hp] at h
      cases h
      simpa using hp
    · rw [if_neg hp] at h
      cases hrec : findOcc pat rest with
      | none => rw [hrec] at h; cases h
      | some j =>
        rw [hrec] at h
        cases h
        simpa using ih j hrec

theorem findOcc_bound (pat cs : List Char) (i : Nat) (h : findOcc pat cs = some i) :
    ∀ q, q < i → pat.isPrefixOf (cs.drop q) = false := by
  induction cs generalizing i with
  | nil =>
    intro q hq
    simp only [findOcc] at h
    by_cases hp : pat.isPrefixOf ([] : List Char) = true
    · rw [if_pos hp] at h; cases h; omega
    · rw [if_neg hp] at h; cases h
  | cons c rest ih =>
    intro q hq
    simp only [findOcc] at h
    by_cases hp : pat.isPrefixOf (c :: rest) = true
    · rw [if_pos hp] at h; cases h; omega
    · rw [if_neg hp] at h
      cases hrec : findOcc pat rest with
      | none => rw [hrec] at h; cases h
      | some j =>
        rw [hrec] at h
        cases h
        cases q with
        | zero => simpa using Bool.not_eq_true _ |>.mp hp
        | succ q' => simpa using ih j hrec q' (by omega)

theorem findOcc_of (pat cs : List Char) (n : Nat)
    (hpref : pat.isPrefixOf (cs.drop n) = true)
    (hbefore : ∀ q, q < n → pat.isPrefixOf (cs.drop q) = false) :
    findOcc pat cs = some n := by
  induction cs generalizing n with
  | nil =>
    cases n with
    | zero => simp only [findOcc]; rw [if_pos (by simpa using hpref)]
    | succ n' =>
      have h0 := hbefore 0 (by omega)
      simp only [List.drop_nil] at hpref h0
      rw [hpref] at h0
      cases h0
  | cons c rest ih =>
    cases n with
    | zero =>
      simp only [findOcc]
      rw [if_pos (by simpa using hpref)]
    | succ n' =>
      have h0 := hbefore 0 (by omega)
      simp only [List.drop_zero] at h0
      simp only [findOcc]
      rw [if_neg (by simp [h0])]
      rw [ih n' (by simpa using hpref) (fun q hql => by simpa using hbefore (q + 1) (by omega))]

theorem findOcc_none (pat cs : List Char) (h : findOcc pat cs = none) :
    ∀ q, pat.isPrefixOf (cs.drop q) = false := by
  induction cs with
  | nil =>
    intro q
    simp only [findOcc] at h
    by_cases hp : pat.isPrefixOf ([] : List Char) = true
    · rw [if_pos hp] at h; cases h
    · simpa using Bool.not_eq_true _ |>.mp hp
  | cons c rest ih =>
    intro q
    simp only [findOcc] at h
    by_cases hp : pat.isPrefixOf (c :: rest) = true
    · rw [if_pos hp] at h; cases h
    · rw [if_neg hp] at h
      cases hrec : findOcc pat rest with
      | some j => rw [hrec] at h; cases h
      | none =>
        cases q with
        | zero => simpa using Bool.not_eq_true _ |>.mp hp
        | succ q' => simpa using ih hrec q'

theorem markerMatch_none_of_no_tok (cs : List Char)
    (h : ∀ q, tokenL.isPrefixOf (cs.drop q) = false) : markerMatch cs = none := by
  induction cs with
  | nil => rfl
  | cons c rest ih =>
    have h0 : tokenL.isPrefixOf (c :: rest) = false := by simpa using h 0
    simp only [markerMatch, matchHere_none_of_not_tok _ h0]
    rw [ih (fun q => by simpa using h (q + 1))]



theorem drop_append_len {α : Type} (pre l : List α) (n : Nat) :
    (pre ++ l).drop (pre.length + n) = l.drop n := by
  induction pre with
  | nil => simp
  | cons x xs ih => simp [Nat.succ_add, ih]

theorem removeFirst_eq (cs pat : List Char) (i : Nat) (h : findOcc pat cs = some i) :
    removeFirst cs pat = cs.take i ++ cs.drop (i + pat.length) := by
  rw [removeFirst, h]

/-- Claim C1 (amended).  For a model-message text consisting of a prefix
followed by a single well-formed trailing marker block (the opening token
occurs first at the start of the block, and the array literal contains no
closing bracket before its end), extraction returns the prefix trimmed
together with the parsed array; and for any text containing no occurrence
of the marker opening token, extraction returns the text unchanged with an
empty list.  The amendment restricts the original claim to texts where the
leftmost lazy regex match coincides with the trailing block, which the
counterexample shows is not automatic. -/
theorem claim_C1_amended :
    (∀ (p ws1 inner ws2 : List Char) (l : List Json) (b : Bool),
      (∀ x ∈ ws1, wsChar x = true) → (∀ x ∈ ws2, wsChar x = true) →
      ']' ∉ inner →
      findOcc tokenL (p ++ (tokenL ++ (ws1 ++ '[' :: (inner ++ ']' :: (ws2 ++ gt3)))))
        = some p.length →
      jsonParse ('[' :: (inner ++ [']'])) = some (Json.arr l) →
      extract (String.mk (p ++ (tokenL ++ (ws1 ++ '[' :: (inner ++ ']' :: (ws2 ++ gt3)))))) false b
        = (String.mk (trimL p), l)) ∧
    (∀ (content : String) (b : Bool),
      findOcc openTokL content.data = none →
      extract content false b = (content, [])) := by
  constructor
  · intro p ws1 inner ws2 l b hws1 hws2 h4 hocc hjson
    have hmb := matchHere_block ws1 inner ws2 hws1 hws2 h4
    have hq := findOcc_bound tokenL _ p.length hocc
    have hmm : markerMatch (p ++ (tokenL ++ (ws1 ++ '[' :: (inner ++ ']' :: (ws2 ++ gt3)))))
        = some (p.length,
            tokenL.length + ws1.length + 1 + inner.length + 1 + ws2.length + 3,
            '[' :: (inner ++ [']'])) :=
      markerMatch_append p _ _ _ hq hmb
    have hXlen : (tokenL ++ (ws1 ++ '[' :: (inner ++ ']' :: (ws2 ++ gt3)))).length
        = tokenL.length + ws1.length + 1 + inner.length + 1 + ws2.length + 3 := by
      simp [gt3]
      omega
    have hdrop : (p ++ (tokenL ++ (ws1 ++ '[' :: (inner ++ ']' :: (ws2 ++ gt3))))).drop p.length
        = tokenL ++ (ws1 ++ '[' :: (inner ++ ']' :: (ws2 ++ gt3))) := List.drop_left p _
    have hm0 : (tokenL ++ (ws1 ++ '[' :: (inner ++ ']' :: (ws2 ++ gt3)))).take
          (tokenL.length + ws1.length + 1 + inner.length + 1 + ws2.length + 3)
        = tokenL ++ (ws1 ++ '[' :: (inner ++ ']' :: (ws2 ++ gt3))) := by
      rw [← hXlen]
      exact List.take_length _
    have hro : findOcc (tokenL ++ (ws1 ++ '[' :: (inner ++ ']' :: (ws2 ++ gt3))))
        (p ++ (tokenL ++ (ws1 ++ '[' :: (inner ++ ']' :: (ws2 ++ gt3))))) = some p.length := by
      apply findOcc_of
      · rw [List.drop_left]
        rw [List.isPrefixOf_iff_prefix]
      · intro q hq2
        cases hb : (tokenL ++ (ws1 ++ '[' :: (inner ++ ']' :: (ws2 ++ gt3)))).isPrefixOf
            ((p ++ (tokenL ++ (ws1 ++ '[' :: (inner ++ ']' :: (ws2 ++ gt3))))).drop q) with
        | false => rfl
        | true =>
          have htok := isPrefixOf_of_append tokenL _ _ hb
          rw [hq q hq2] at htok
          cases htok
    have hrf : removeFirst (p ++ (tokenL ++ (ws1 ++ '[' :: (inner ++ ']' :: (ws2 ++ gt3)))))
        (tokenL ++ (ws1 ++ '[' :: (inner ++ ']' :: (ws2 ++ gt3)))) = p := by
      rw [removeFirst_eq _ _ _ hro, List.take_left, drop_append_len,
        List.drop_length, List.append_nil]
    simp only [extract, Bool.false_eq_true, if_false, hmm, hjson, hdrop, hm0, hrf]
  · intro content b hocc
    have hnotok : ∀ q, openTokL.isPrefixOf (content.data.drop q) = false :=
      findOcc_none openTokL content.data hocc
    have htokL : ∀ q, tokenL.isPrefixOf (content.data.drop q) = false := by
      intro q
      cases hb : tokenL.isPrefixOf (content.data.drop q) with
      | false => rfl
      | true =>
        have : openTokL.isPrefixOf (content.data.drop q) = true := by
          have heq : tokenL = openTokL ++ [':'] := by decide
          exact isPrefixOf_of_append openTokL [':'] _ (heq ▸ hb)
        rw [hnotok q] at this
        cases this
    have hmm : markerMatch content.data = none := markerMatch_none_of_no_tok _ htokL
    cases b with
    | false => simp [extract, hmm]
    | true => simp [extract, hmm, hocc]



theorem trimL_prefix_dropWhile (y : List Char) :
    trimL y <+: y.dropWhile wsChar := by
  rw [← List.reverse_suffix]
  simp only [trimL, List.reverse_reverse]
  exact List.dropWhile_suffix wsChar

theorem dropWhile_eq_drop (y : List Char) :
    y.dropWhile wsChar = y.drop (y.takeWhile wsChar).length := by
  induction y with
  | nil => simp
  | cons c cs ih =>
    by_cases hc : wsChar c = true
    · simp [List.dropWhile, List.takeWhile, hc, ih]
    · simp [List.dropWhile, List.takeWhile, hc]

theorem prefix_drop_mono {α : Type} {l1 l2 : List α} (h : l1 <+: l2) (r : Nat) :
    l1.drop r <+: l2.drop r := by
  obtain ⟨t, rfl⟩ := h
  rw [List.drop_append_eq_append_drop]
  exact List.prefix_append _ _

/-- Claim C6 (amended).  While streaming, when no complete marker block
matches and the opening token occurs first at a given offset, the display
text is the prefix before that offset, trimmed of surrounding whitespace,
and no occurrence of the opening token remains in the display text.  The
amendment adds the trim, which the counterexample shows the code
performs beyond plain truncation. -/
theorem claim_C6_amended (content : String) (q : Nat)
    (hnm : markerMatch content.data = none)
    (hocc : findOcc openTokL content.data = some q) :
    extract content false true = (String.mk (trimL (content.data.take q)), []) ∧
    ∀ r, openTokL.isPrefixOf ((trimL (content.data.take q)).drop r) = false := by
  constructor
  · simp [extract, hnm, hocc]
  · intro r
    cases hb : openTokL.isPrefixOf ((trimL (content.data.take q)).drop r) with
    | false => rfl
    | true =>
      exfalso
      rw [List.isPrefixOf_iff_prefix] at hb
      have htp : trimL (content.data.take q) <+:
          (content.data.take q).drop ((content.data.take q).takeWhile wsChar).length := by
        rw [← dropWhile_eq_drop]
        exact trimL_prefix_dropWhile _
      have h1 : (trimL (content.data.take q)).drop r <+:
          (content.data.take q).drop
            (((content.data.take q).takeWhile wsChar).length + r) := by
        have h0 := prefix_drop_mono htp r
        rwa [List.drop_drop] at h0
      have h2 := hb.trans h1
      rw [List.drop_take] at h2
      by_cases hm : ((content.data.take q).takeWhile wsChar).length + r < q
      · have h3 : openTokL <+:
            content.data.drop (((content.data.take q).takeWhile wsChar).length + r) :=
          h2.trans (List.take_prefix _ _)
        rw [← List.isPrefixOf_iff_prefix] at h3
        rw [findOcc_bound openTokL content.data q hocc _ hm] at h3
        cases h3
      · have hq0 : q - (((content.data.take q).takeWhile wsChar).length + r) = 0 := by omega
        rw [hq0, List.take_zero, List.prefix_nil] at h2
        have : openTokL ≠ [] := by decide
        exact this h2



theorem matchHere_group (cs : List Char) (len : Nat) (grp : List Char)
    (h : matchHere cs = some (len, grp)) : ∃ t, grp = '[' :: t := by
  simp only [matchHere] at h
  split at h
  · split at h
    · split at h
      · split at h
        · cases h with
          | refl => exact ⟨_, rfl⟩
        · cases h
      · cases h
    · cases h
  · cases h

theorem markerMatch_group (cs : List Char) (i len : Nat) (grp : List Char)
    (h : markerMatch cs = some (i, len, grp)) : ∃ t, grp = '[' :: t := by
  induction cs generalizing i with
  | nil => cases h
  | cons c rest ih =>
    simp only [markerMatch] at h
    cases hm : matchHere (c :: rest) with
    | some pr =>
      rw [hm] at h
      obtain ⟨len', grp'⟩ := pr
      cases h with
      | refl => exact matchHere_group _ _ _ hm
    | none =>
      rw [hm] at h
      cases hrec : markerMatch rest with
      | none => rw [hrec] at h; cases h
      | some tr =>
        rw [hrec] at h
        obtain ⟨i', len', grp'⟩ := tr
        cases h with
        | refl => exact ih i' hrec

theorem parseVal_bracket (f : Nat) (t : List Char) (v : Json) (r : List Char)
    (h : parseVal (f + 1) ('[' :: t) = some (v, r)) : ∃ l, v = Json.arr l := by
  simp only [parseVal] at h
  rw [show List.dropWhile jsonWs ('[' :: t) = '[' :: t from by
    simp [List.dropWhile, jsonWs]] at h
  cases ha : parseArrTail f t with
  | none => simp [ha] at h
  | some pr =>
    obtain ⟨l, r'⟩ := pr
    simp only [ha] at h
    cases h with
    | refl => exact ⟨l, rfl⟩

theorem jsonParse_bracket_arr (t : List Char) (v : Json)
    (h : jsonParse ('[' :: t) = some v) : ∃ l, v = Json.arr l := by
  simp only [jsonParse] at h
  have hfs : 2 * ('[' :: t).length + 8 = (2 * ('[' :: t).length + 7) + 1 := rfl
  rw [hfs] at h
  cases hv : parseVal (2 * ('[' :: t).length + 7 + 1) ('[' :: t) with
  | none => rw [hv] at h; cases h
  | some pr =>
    rw [hv] at h
    obtain ⟨v', rest⟩ := pr
    obtain ⟨l, rfl⟩ := parseVal_bracket _ _ _ _ hv
    by_cases he : (rest.dropWhile jsonWs).isEmpty = true
    · simp only [he, if_true, Option.some.injEq] at h
      exact ⟨l, h.symm⟩
    · simp only [he, if_false] at h
      simp at h

/-- Claim C7.  When the marker regex matches but the enclosed span
fails to parse as a JSON array (a parse error, or a parsed value that is
not an array, the latter being impossible since the span starts with a
bracket), extraction returns the original text unchanged and an empty
suggestion list. -/
theorem claim_C7 (content : String) (i len : Nat) (grp : List Char) (b : Bool)
    (hmm : markerMatch content.data = some (i, len, grp))
    (hbad : jsonParse grp = none ∨ ∃ v, jsonParse grp = some v ∧ ∀ l, v ≠ Json.arr l) :
    extract content false b = (content, []) := by
  rcases hbad with hnone | ⟨v, hv, hnar⟩
  · simp [extract, hmm, hnone]
  · obtain ⟨t, rfl⟩ := markerMatch_group _ _ _ _ hmm
    obtain ⟨l, rfl⟩ := jsonParse_bracket_arr t v hv
    exact absurd rfl (hnar l)



theorem finishFirst_append (aid : Nat) (pre : List Message) (ph : Message)
    (hpre : ∀ m ∈ pre, m.id ≠ aid) (hph : ph.id = aid) :
    finishFirst aid (pre ++ [ph]) = pre ++ [{ ph with isStreaming := false }] := by
  induction pre with
  | nil => simp [finishFirst, hph]
  | cons x xs ih =>
    have hx : x.id ≠ aid := hpre x (by simp)
    simp only [List.cons_append, finishFirst, if_neg hx, List.append_eq]
    rw [ih (fun m hm => hpre m (by simp [hm]))]

theorem updateLast_append (aid : Nat) (acc : String) (pre : List Message) (ph : Message) :
    updateLast aid acc (pre ++ [ph]) =
      pre ++ [if ph.id = aid then { ph with content := acc } else ph] := by
  induction pre with
  | nil =>
    simp only [List.nil_append, updateLast]
    split <;> rfl
  | cons x xs ih =>
    cases hxx : xs ++ [ph] with
    | nil => simp at hxx
    | cons y ys =>
      simp only [List.cons_append, hxx, updateLast]
      rw [← hxx, ih]

theorem errorPatch_append (aid : Nat) (pre : List Message) (ph : Message)
    (hpre : ∀ m ∈ pre, m.id ≠ aid) (hph : ph.id = aid) :
    errorPatch aid (pre ++ [ph]) =
      pre ++ [{ ph with isStreaming := false,
                        content := if ph.content = "" then failText else ph.content }] := by
  induction pre with
  | nil => simp [errorPatch, hph]
  | cons x xs ih =>
    have hx : x.id ≠ aid := hpre x (by simp)
    simp only [List.cons_append, errorPatch, List.map_cons, if_neg hx]
    have := ih (fun m hm => hpre m (by simp [hm]))
    simp only [errorPatch] at this
    rw [this]




theorem inv_finalize0 (s : AppState) (ctx : SendCtx) (pre : List Message) (ph : Message)
    (hids : ∀ m ∈ s.messages, m.id < s.nextId)
    (hp : s.pending = [ctx]) (hm : s.messages = pre ++ [ph])
    (hid : ph.id = ctx.aiMessageId)
    (hpres : ∀ m ∈ pre, m.isStreaming = false)
    (hprei : ∀ m ∈ pre, m.id ≠ ctx.aiMessageId) :
    Inv (finalizeStream 0 ctx s) := by
  simp only [finalizeStream]
  rw [hm, finishFirst_append ctx.aiMessageId pre ph hprei hid, hp]
  refine ⟨?_, Or.inl ⟨rfl, rfl, ?_⟩⟩
  · intro m hmm
    show m.id < s.nextId
    simp only [List.mem_append, List.mem_singleton] at hmm
    rcases hmm with hmm | hmm
    · exact hids m (by rw [hm]; exact List.mem_append_left _ hmm)
    · subst hmm
      exact hids ph (by rw [hm]; exact List.mem_append_right _ (by simp))
  · intro m hmm
    simp only [List.mem_append, List.mem_singleton] at hmm
    rcases hmm with hmm | hmm
    · exact hpres m hmm
    · subst hmm; rfl

theorem inv_gstep (op : Op) (s : AppState) (hinv : Inv s) (hcore : isCore op = true) :
    Inv (gstep op s) := by
  cases op with
  | send text isRegen =>
    simp only [gstep]
    by_cases hl : s.isLoading = true
    · rw [if_pos hl]; exact hinv
    · rw [if_neg hl]
      obtain ⟨hids, hcase⟩ := hinv
      rcases hcase with ⟨hp, _, hstream⟩ | ⟨ctx, pre, ph, _, hl', _⟩
      · simp only [step, sendStart, hp]
        by_cases hreg : isRegen = true
        · rw [if_pos hreg]
          refine ⟨?_, Or.inr ⟨⟨s.nextId + 1, "", text⟩, s.messages,
            ⟨s.nextId + 1, Role.model, "", s.nextId, true⟩,
            rfl, rfl, rfl, rfl, rfl, hstream, ?_⟩⟩
          · intro m hm
            show m.id < s.nextId + 2
            simp only [List.mem_append, List.mem_singleton] at hm
            rcases hm with hm | hm
            · have := hids m hm; omega
            · subst hm; show s.nextId + 1 < s.nextId + 2; omega
          · intro m hm
            have := hids m hm
            show m.id ≠ s.nextId + 1
            omega
        · rw [if_neg hreg]
          refine ⟨?_, Or.inr ⟨⟨s.nextId + 1, "", text⟩,
            s.messages ++ [⟨s.nextId, Role.user, text, s.nextId, false⟩],
            ⟨s.nextId + 1, Role.model, "", s.nextId, true⟩,
            rfl, rfl, rfl, rfl, rfl, ?_, ?_⟩⟩
          · intro m hm
            show m.id < s.nextId + 2
            simp only [List.mem_append, List.mem_singleton] at hm
            rcases hm with (hm | hm) | hm
            · have := hids m hm; omega
            · subst hm; show s.nextId < s.nextId + 2; omega
            · subst hm; show s.nextId + 1 < s.nextId + 2; omega
          · intro m hm
            simp only [List.mem_append, List.mem_singleton] at hm
            rcases hm with hm | hm
            · exact hstream m hm
            · subst hm; rfl
          · intro m hm
            show m.id ≠ s.nextId + 1
            simp only [List.mem_append, List.mem_singleton] at hm
            rcases hm with hm | hm
            · have := hids m hm; omega
            · subst hm; show s.nextId ≠ s.nextId + 1; omega
      · exact absurd hl' hl
  | stop =>
    simp only [gstep, step]
    by_cases hl : s.isLoading = true
    · rw [if_pos hl]; exact hinv
    · rw [if_neg hl]; exact hinv
  | chunk i str =>
    simp only [gstep, step]
    obtain ⟨hids, hcase⟩ := hinv
    rcases hcase with ⟨hp, hl, hstream⟩ | ⟨ctx, pre, ph, hp, hl, hm, hs, hid, hpres, hprei⟩
    · rw [hp]
      simp only [nth]
      exact ⟨hids, Or.inl ⟨hp, hl, hstream⟩⟩
    · rw [hp]
      cases i with
      | succ j =>
        simp only [nth]
        exact ⟨hids, Or.inr ⟨ctx, pre, ph, hp, hl, hm, hs, hid, hpres, hprei⟩⟩
      | zero =>
        simp only [nth]
        by_cases hstop : s.stopFlag = true
        · rw [if_pos hstop]
          exact inv_finalize0 s ctx pre ph hids hp hm hid hpres hprei
        · rw [if_neg hstop]
          rw [hm, updateLast_append, if_pos hid]
          refine ⟨?_, Or.inr ⟨⟨ctx.aiMessageId, ctx.accumulated ++ str, ctx.sentText⟩,
            pre, ⟨ph.id, ph.role, ctx.accumulated ++ str, ph.timestamp, ph.isStreaming⟩,
            rfl, hl, rfl, hs, hid, hpres, hprei⟩⟩
          intro m hmm
          show m.id < s.nextId
          simp only [List.mem_append, List.mem_singleton] at hmm
          rcases hmm with hmm | hmm
          · exact hids m (by rw [hm]; exact List.mem_append_left _ hmm)
          · subst hmm
            exact hids ph (by rw [hm]; exact List.mem_append_right _ (by simp))
  | streamEnd i =>
    simp only [gstep, step]
    obtain ⟨hids, hcase⟩ := hinv
    rcases hcase with ⟨hp, hl, hstream⟩ | ⟨ctx, pre, ph, hp, hl, hm, hs, hid, hpres, hprei⟩
    · rw [hp]
      simp only [nth]
      exact ⟨hids, Or.inl ⟨hp, hl, hstream⟩⟩
    · rw [hp]
      cases i with
      | succ j =>
        simp only [nth]
        exact ⟨hids, Or.inr ⟨ctx, pre, ph, hp, hl, hm, hs, hid, hpres, hprei⟩⟩
      | zero =>
        simp only [nth]
        exact inv_finalize0 s ctx pre ph hids hp hm hid hpres hprei
  | streamError i =>
    simp only [gstep, step]
    obtain ⟨hids, hcase⟩ := hinv
    rcases hcase with ⟨hp, hl, hstream⟩ | ⟨ctx, pre, ph, hp, hl, hm, hs, hid, hpres, hprei⟩
    · rw [hp]
      simp only [nth]
      exact ⟨hids, Or.inl ⟨hp, hl, hstream⟩⟩
    · rw [hp]
      cases i with
      | succ j =>
        simp only [nth]
        exact ⟨hids, Or.inr ⟨ctx, pre, ph, hp, hl, hm, hs, hid, hpres, hprei⟩⟩
      | zero =>
        simp only [nth]
        rw [hm, errorPatch_append ctx.aiMessageId pre ph hprei hid]
        refine ⟨?_, Or.inl ⟨rfl, rfl, ?_⟩⟩
        · intro m hmm
          show m.id < s.nextId
          simp only [List.mem_append, List.mem_singleton] at hmm
          rcases hmm with hmm | hmm
          · exact hids m (by rw [hm]; exact List.mem_append_left _ hmm)
          · subst hmm
            exact hids ph (by rw [hm]; exact List.mem_append_right _ (by simp))
        · intro m hmm
          simp only [List.mem_append, List.mem_singleton] at hmm
          rcases hmm with hmm | hmm
          · exact hpres m hmm
          · subst hmm; rfl
  | regenerate => simp [isCore] at hcore
  | edit mid text => simp [isCore] at hcore



theorem inv_runG (ops : List Op) (s : AppState) (hinv : Inv s)
    (hcore : ∀ op ∈ ops, isCore op = true) : Inv (runG ops s) := by
  induction ops generalizing s with
  | nil => exact hinv
  | cons op rest ih =>
    simp only [runG, List.foldl_cons]
    exact ih (gstep op s) (inv_gstep op s hinv (hcore op (by simp)))
      (fun o ho => hcore o (by simp [ho]))

theorem streamCount_le_one_of_inv (s : AppState) (hinv : Inv s) :
    streamCount s.messages ≤ 1 := by
  obtain ⟨-, hcase⟩ := hinv
  rcases hcase with ⟨-, -, hstream⟩ | ⟨ctx, pre, ph, -, -, hm, hs, -, hpres, -⟩
  · have h : s.messages.filter (fun m => m.isStreaming) = [] := by
      rw [List.filter_eq_nil_iff]
      intro m hm
      simp [hstream m hm]
    simp [streamCount, h]
  · rw [hm]
    have hzero : pre.filter (fun m => m.isStreaming) = [] := by
      rw [List.filter_eq_nil_iff]
      intro m hm
      simp [hpres m hm]
    simp [streamCount, List.filter_append, hzero, hs]

/-- Claim C4 (amended).  For every sequence of send, stream and stop
operations in which no send is initiated while one is in flight (the
guarded machine), at most one message has its streaming flag set.  The
amendment adds this guard: the counterexample shows that a suggestion-chip
send issued mid-stream, which the source does not gate on the loading
flag, produces two streaming placeholders. -/
theorem claim_C4_amended (ops : List Op) (hcore : ∀ op ∈ ops, isCore op = true) :
    streamCount (runG ops init).messages ≤ 1 := by
  apply streamCount_le_one_of_inv
  apply inv_runG ops init ?_ hcore
  exact ⟨by simp [init], Or.inl ⟨rfl, rfl, by simp [init]⟩⟩

/-- Claim C4 (amended), witness on a concrete guarded run. -/
theorem claim_C4_amended_w :
    streamCount (runG [Op.send "a" false, Op.chunk 0 "hello", Op.stop,
      Op.chunk 0 "tail", Op.send "b" false, Op.streamEnd 0] init).messages ≤ 1 :=
  claim_C4_amended [Op.send "a" false, Op.chunk 0 "hello", Op.stop,
      Op.chunk 0 "tail", Op.send "b" false, Op.streamEnd 0] (by decide)



theorem nth_append_right {α : Type} (pre l : List α) (k : Nat) :
    nth (pre ++ l) (pre.length + k) = nth l k := by
  induction pre with
  | nil => simp [nth]
  | cons x xs ih => simpa [nth, Nat.succ_add] using ih

theorem take_append_len {α : Type} (pre l : List α) (n : Nat) :
    (pre ++ l).take (pre.length + n) = pre ++ l.take n := by
  induction pre with
  | nil => simp
  | cons x xs ih => simpa [Nat.succ_add] using ih

theorem dropLast_pair {α : Type} (l : List α) (a b : α) :
    ((((l ++ [a]) ++ [b]).dropLast).dropLast) = l := by
  rw [List.dropLast_concat, List.dropLast_concat]

/-- Claim C10 (amended).  Immediately after every regenerate and every
edit that fires, the adapter session's seeded history equals exactly the
role and text pairs of the retained UI prefix, which is the message list
minus the trailing in-flight user-and-placeholder pair.  The amendment
drops the every-point form of the invariant: plain sends do not reseed the
session, as the counterexample shows. -/
theorem claim_C10_amended :
    (∀ (s : AppState) (pre : List Message) (u m : Message),
      s.messages = pre ++ [u, m] → m.role = Role.model → u.role = Role.user →
      s.isLoading = false →
      (step Op.regenerate s).session = pre.map toEntry ∧
      ((step Op.regenerate s).messages.dropLast).dropLast = pre) ∧
    (∀ (s : AppState) (idx : Nat) (mid : Nat) (t : String) (m : Message),
      findIndex (fun x => x.id == mid) s.messages = some idx →
      nth s.messages idx = some m → m.role = Role.user →
      (step (Op.edit mid t) s).session = (s.messages.take idx).map toEntry ∧
      ((step (Op.edit mid t) s).messages.dropLast).dropLast = s.messages.take idx) := by
  constructor
  · intro s pre u m hm hrm hru hl
    have hnth1 : nth s.messages (s.messages.length - 1) = some m := by
      rw [hm]
      have hh : (pre ++ [u, m]).length - 1 = pre.length + 1 := by simp
      rw [hh]
      simpa [nth] using nth_append_right pre [u, m] 1
    have hnth2 : nth s.messages (s.messages.length - 2) = some u := by
      rw [hm]
      have hh : (pre ++ [u, m]).length - 2 = pre.length + 0 := by simp
      rw [hh]
      simpa [nth] using nth_append_right pre [u, m] 0
    have htake2 : s.messages.take (s.messages.length - 2) = pre := by
      rw [hm]
      have hh : (pre ++ [u, m]).length - 2 = pre.length := by simp
      rw [hh, List.take_left]
    have htake1 : s.messages.take (s.messages.length - 1) = pre ++ [u] := by
      rw [hm]
      have hh : (pre ++ [u, m]).length - 1 = pre.length + 1 := by simp
      rw [hh, take_append_len]
      rfl
    have hne : s.messages.isEmpty = false := by simp [hm]
    have h2le : 2 ≤ s.messages.length := by
      rw [hm]; simp
    simp only [step, hne, hl, Bool.or_self, if_false, hnth1, hnth2,
      if_pos h2le, hrm, hru, if_pos rfl, htake1, htake2, sendStart, if_true]
    exact ⟨rfl, dropLast_pair pre u _⟩
  · intro s idx mid t m hf hn hr
    simp only [step, hf, hn, hr, if_pos rfl, sendStart, if_false,
      Bool.false_eq_true, ite_false]
    exact ⟨rfl, dropLast_pair (s.messages.take idx) _ _⟩



theorem find?_errorPatch (aid : Nat) (ms : List Message) (m : Message)
    (h : ms.find? (fun x => x.id == aid) = some m) :
    (errorPatch aid ms).find? (fun x => x.id == aid) =
      some { m with isStreaming := false,
                    content := if m.content = "" then failText else m.content } := by
  induction ms with
  | nil => simp at h
  | cons x xs ih =>
    by_cases hx : x.id = aid
    · rw [List.find?_cons_of_pos _ (by simp [hx])] at h
      cases h
      simp [errorPatch, hx, List.find?_cons_of_pos]
    · rw [List.find?_cons_of_neg _ (by simp [hx])] at h
      have := ih h
      simp only [errorPatch, List.map] at this ⊢
      rw [if_neg hx, List.find?_cons_of_neg _ (by simp [hx])]
      exact this

/-- Claim C9.  On a transport failure mid-stream the error banner is
set, loading is cleared, and the in-flight message is marked non-streaming
with its content replaced by the failure marker exactly when no text had
accumulated; accumulated text is preserved otherwise. -/
theorem claim_C9 (s : AppState) (i : Nat) (ctx : SendCtx) (m : Message)
    (hp : nth s.pending i = some ctx)
    (hm : firstById ctx.aiMessageId s.messages = some m) :
    (step (Op.streamError i) s).error = some errBanner ∧
    (step (Op.streamError i) s).isLoading = false ∧
    firstById ctx.aiMessageId (step (Op.streamError i) s).messages =
      some { m with isStreaming := false,
                    content := if m.content = "" then failText else m.content } := by
  have h3 := find?_errorPatch ctx.aiMessageId s.messages m hm
  simp [step, hp, firstById, h3]



theorem find?_finishFirst (aid : Nat) (ms : List Message) (m : Message)
    (h : ms.find? (fun x => x.id == aid) = some m) :
    (finishFirst aid ms).find? (fun x => x.id == aid) =
      some { m with isStreaming := false } := by
  induction ms with
  | nil => simp at h
  | cons x xs ih =>
    by_cases hx : x.id = aid
    · rw [List.find?_cons_of_pos _ (by simp [hx])] at h
      cases h
      simp [finishFirst, hx, List.find?_cons_of_pos]
    · rw [List.find?_cons_of_neg _ (by simp [hx])] at h
      have := ih h
      simp only [finishFirst] at this ⊢
      rw [if_neg hx, List.find?_cons_of_neg _ (by simp [hx])]
      exact this

/-- Claim C8.  When a stop has been requested and a fragment arrives,
the loop halts: the placeholder keeps exactly the accumulated text, its
streaming flag is cleared, the invocation is discharged, and no further
chunk event changes the state. -/
theorem claim_C8 (s : AppState) (ctx : SendCtx) (m : Message) (str : String)
    (hp : s.pending = [ctx])
    (hstop : s.stopFlag = true)
    (hm : firstById ctx.aiMessageId s.messages = some m) :
    firstById ctx.aiMessageId (step (Op.chunk 0 str) s).messages =
      some { m with isStreaming := false } ∧
    (step (Op.chunk 0 str) s).pending = [] ∧
    (step (Op.chunk 0 str) s).isLoading = false ∧
    (∀ (j : Nat) (str2 : String),
      step (Op.chunk j str2) (step (Op.chunk 0 str) s) = step (Op.chunk 0 str) s) := by
  have hres : step (Op.chunk 0 str) s = finalizeStream 0 ctx s := by
    simp [step, hp, hstop, nth]
  have h1 := find?_finishFirst ctx.aiMessageId s.messages m hm
  refine ⟨?_, ?_, ?_, ?_⟩
  · rw [hres]; simpa [finalizeStream, firstById] using h1
  · rw [hres]; simp [finalizeStream, hp, removeAt]
  · rw [hres]; simp [finalizeStream]
  · intro j str2
    rw [hres]
    simp [step, finalizeStream, hp, removeAt, nth]

/-- Claim C5 (amended).  Regenerate performs no action while a send is
outstanding; edit, however, is not guarded by the in-flight flag: its
effect on the message list and the session is the same whatever the value
of the loading flag.  The counterexample shows edit acting during a
send. -/
theorem claim_C5_amended :
    (∀ s : AppState, s.isLoading = true → step Op.regenerate s = s) ∧
    (∀ (s : AppState) (mid : Nat) (t : String) (b1 b2 : Bool),
      (step (Op.edit mid t) { s with isLoading := b1 }).messages =
        (step (Op.edit mid t) { s with isLoading := b2 }).messages ∧
      (step (Op.edit mid t) { s with isLoading := b1 }).session =
        (step (Op.edit mid t) { s with isLoading := b2 }).session) := by
  constructor
  · intro s h
    simp [step, h]
  · intro s mid t b1 b2
    simp only [step]
    cases hf : findIndex (fun m => m.id == mid) s.messages with
    | none => simp
    | some idx =>
      cases hn : nth s.messages idx with
      | none => simp [hn]
      | some m =>
        by_cases hr : m.role = Role.user
        · simp [hn, hr, sendStart]
        · simp [hn, hr]

/-- Claim C2.  On a conversation of shape user, model, user, model with
no send in flight, regenerate reseeds the adapter session with exactly the
two messages before the resend target, keeps the target user message,
drops the last model message, and starts a fresh streaming placeholder for
the same text without appending a duplicate user message. -/
theorem claim_C2 (s : AppState) (u1 m1 u2 m2 : Message)
    (hm : s.messages = [u1, m1, u2, m2])
    (_h1 : u1.role = Role.user) (_h2 : m1.role = Role.model)
    (h3 : u2.role = Role.user) (h4 : m2.role = Role.model)
    (hl : s.isLoading = false) :
    (step Op.regenerate s).session = [toEntry u1, toEntry m1] ∧
    (step Op.regenerate s).messages =
      [u1, m1, u2,
       { id := s.nextId + 1, role := Role.model, content := "",
         timestamp := s.nextId, isStreaming := true }] ∧
    (step Op.regenerate s).isLoading = true ∧
    (step Op.regenerate s).pending =
      s.pending ++ [{ aiMessageId := s.nextId + 1, accumulated := "", sentText := u2.content }] := by
  simp [step, hm, hl, h4, h3, nth, sendStart, toEntry]

/-- Claim C2, witness on a conversation built by running the machine. -/
theorem claim_C2_w :
    (step Op.regenerate (runOps [Op.send "q1" false, Op.chunk 0 "r1", Op.streamEnd 0,
        Op.send "q2" false, Op.chunk 0 "r2", Op.streamEnd 0] init)).session =
      [⟨Role.user, "q1"⟩, ⟨Role.model, "r1"⟩] ∧
    (step Op.regenerate (runOps [Op.send "q1" false, Op.chunk 0 "r1", Op.streamEnd 0,
        Op.send "q2" false, Op.chunk 0 "r2", Op.streamEnd 0] init)).messages =
      [⟨0, Role.user, "q1", 0, false⟩, ⟨1, Role.model, "r1", 0, false⟩,
       ⟨2, Role.user, "q2", 2, false⟩, ⟨5, Role.model, "", 4, true⟩] ∧
    (step Op.regenerate (runOps [Op.send "q1" false, Op.chunk 0 "r1", Op.streamEnd 0,
        Op.send "q2" false, Op.chunk 0 "r2", Op.streamEnd 0] init)).isLoading = true ∧
    (step Op.regenerate (runOps [Op.send "q1" false, Op.chunk 0 "r1", Op.streamEnd 0,
        Op.send "q2" false, Op.chunk 0 "r2", Op.streamEnd 0] init)).pending =
      [⟨5, "", "q2"⟩] :=
  claim_C2 (runOps [Op.send "q1" false, Op.chunk 0 "r1", Op.streamEnd 0,
      Op.send "q2" false, Op.chunk 0 "r2", Op.streamEnd 0] init)
    ⟨0, Role.user, "q1", 0, false⟩ ⟨1, Role.model, "r1", 0, false⟩
    ⟨2, Role.user, "q2", 2, false⟩ ⟨3, Role.model, "r2", 2, false⟩
    rfl rfl rfl rfl rfl rfl

/-- Claim C3.  Editing the second user message of a four-message
conversation with new text reseeds the adapter session with the two
messages before it, truncates the UI list to that prefix, and appends a
new user message with the new text followed by a fresh streaming
placeholder. -/
theorem claim_C3 (s : AppState) (u1 m1 u2 m2 : Message) (T : String)
    (hm : s.messages = [u1, m1, u2, m2])
    (h3 : u2.role = Role.user)
    (hne1 : u1.id ≠ u2.id) (hne2 : m1.id ≠ u2.id) :
    (step (Op.edit u2.id T) s).session = [toEntry u1, toEntry m1] ∧
    (step (Op.edit u2.id T) s).messages =
      [u1, m1,
       { id := s.nextId, role := Role.user, content := T,
         timestamp := s.nextId, isStreaming := false },
       { id := s.nextId + 1, role := Role.model, content := "",
         timestamp := s.nextId, isStreaming := true }] ∧
    (step (Op.edit u2.id T) s).isLoading = true := by
  simp [step, hm, h3, hne1, hne2, findIndex, nth, sendStart, toEntry]

/-- Claim C3, witness on a conversation built by running the machine. -/
theorem claim_C3_w :
    (step (Op.edit 2 "T") (runOps [Op.send "q1" false, Op.chunk 0 "r1", Op.streamEnd 0,
        Op.send "q2" false, Op.chunk 0 "r2", Op.streamEnd 0] init)).session =
      [⟨Role.user, "q1"⟩, ⟨Role.model, "r1"⟩] ∧
    (step (Op.edit 2 "T") (runOps [Op.send "q1" false, Op.chunk 0 "r1", Op.streamEnd 0,
        Op.send "q2" false, Op.chunk 0 "r2", Op.streamEnd 0] init)).messages =
      [⟨0, Role.user, "q1", 0, false⟩, ⟨1, Role.model, "r1", 0, false⟩,
       ⟨4, Role.user, "T", 4, false⟩, ⟨5, Role.model, "", 4, true⟩] ∧
    (step (Op.edit 2 "T") (runOps [Op.send "q1" false, Op.chunk 0 "r1", Op.streamEnd 0,
        Op.send "q2" false, Op.chunk 0 "r2", Op.streamEnd 0] init)).isLoading = true :=
  claim_C3 (runOps [Op.send "q1" false, Op.chunk 0 "r1", Op.streamEnd 0,
      Op.send "q2" false, Op.chunk 0 "r2", Op.streamEnd 0] init)
    ⟨0, Role.user, "q1", 0, false⟩ ⟨1, Role.model, "r1", 0, false⟩
    ⟨2, Role.user, "q2", 2, false⟩ ⟨3, Role.model, "r2", 2, false⟩ "T"
    rfl rfl (by decide) (by decide)

/-- Claim C1, counterexample.  A text that ends with the well-formed
marker block over the literal ["b"] but contains an earlier block is
handled by the leftmost match: the code removes the first block and
returns its array, not the trailing one, refuting the claim as stated. -/
theorem claim_C1_cex :
    ("<<<SUGGESTIONS: [\"a\"]>>> end <<<SUGGESTIONS: [\"b\"]>>>" : String).data
      = "<<<SUGGESTIONS: [\"a\"]>>> end ".data
        ++ (tokenL ++ ([' '] ++ '[' :: ("\"b\"".data ++ ']' :: ([] ++ gt3)))) ∧
    jsonParse ('[' :: ("\"b\"".data ++ [']'])) = some (Json.arr [Json.str ['b']]) ∧
    ¬ (extract "<<<SUGGESTIONS: [\"a\"]>>> end <<<SUGGESTIONS: [\"b\"]>>>" false false
        = (String.mk (trimL "<<<SUGGESTIONS: [\"a\"]>>> end ".data), [Json.str ['b']])) := by
  refine ⟨rfl, rfl, ?_⟩
  intro h
  exact absurd (congrArg Prod.fst h) (by decide)

/-- Claim C1 (amended), witness at a concrete prefix and block. -/
theorem claim_C1_amended_w :
    extract (String.mk ("Hello! ".data
        ++ (tokenL ++ ([' '] ++ '[' :: ("\"x\"".data ++ ']' :: ([] ++ gt3)))))) false false
      = (String.mk (trimL "Hello! ".data), [Json.str ['x']]) ∧
    extract "plain" false true = ("plain", []) := by
  constructor
  · exact claim_C1_amended.1 "Hello! ".data [' '] "\"x\"".data [] [Json.str ['x']] false
      (by decide) (by decide) (by decide) rfl rfl
  · exact claim_C1_amended.2 "plain" true rfl

/-- Claim C4, counterexample.  After a completed reply carrying a
suggestion chip, a send from the input box followed by a chip-click send
while the stream is open leaves two messages with the streaming flag set,
refuting the invariant as stated. -/
theorem claim_C4_cex :
    ¬ (streamCount ((runOps [Op.send "a" false,
        Op.chunk 0 "ok <<<SUGGESTIONS: [\"s1\"]>>>", Op.streamEnd 0,
        Op.send "b" false, Op.send "s1" false] init).messages) ≤ 1) ∧
    (extract "ok <<<SUGGESTIONS: [\"s1\"]>>>" false false).2 = [Json.str ['s', '1']] := by
  exact ⟨by decide, rfl⟩

/-- Claim C5, counterexample.  With a send in flight, invoking edit on
the just-sent user message still truncates and resends, changing the
message list, refuting the claim that both operations are disabled. -/
theorem claim_C5_cex :
    (runOps [Op.send "a" false] init).isLoading = true ∧
    ¬ ((step (Op.edit 0 "T") (runOps [Op.send "a" false] init)).messages
        = (runOps [Op.send "a" false] init).messages) := by
  exact ⟨rfl, by decide⟩

/-- Claim C5 (amended), witness: regenerate is a no-op on a loading
state, and edit ignores the flag at a concrete state. -/
theorem claim_C5_amended_w :
    step Op.regenerate (runOps [Op.send "a" false] init) = runOps [Op.send "a" false] init ∧
    (step (Op.edit 0 "T") { init with isLoading := true }).messages =
      (step (Op.edit 0 "T") { init with isLoading := false }).messages :=
  ⟨claim_C5_amended.1 (runOps [Op.send "a" false] init) rfl,
   (claim_C5_amended.2 init 0 "T" true false).1⟩

/-- Claim C6, counterexample.  For a streaming text with a partial
marker after a space, the display text is the trimmed prefix, not the
plain truncation at the token start offset, refuting the claim as
stated. -/
theorem claim_C6_cex :
    markerMatch ("hi <<<SUGGESTIONS" : String).data = none ∧
    findOcc openTokL ("hi <<<SUGGESTIONS" : String).data = some 3 ∧
    ¬ ((extract "hi <<<SUGGESTIONS" false true).1
        = String.mk (("hi <<<SUGGESTIONS" : String).data.take 3)) := by
  exact ⟨rfl, rfl, by decide⟩

/-- Claim C6 (amended), witness at a concrete streaming text. -/
theorem claim_C6_amended_w :
    extract "hi <<<SUGGESTIONS" false true = ("hi", []) ∧
    openTokL.isPrefixOf ((trimL (("hi <<<SUGGESTIONS" : String).data.take 3)).drop 0) = false := by
  have h := claim_C6_amended "hi <<<SUGGESTIONS" 3 rfl rfl
  exact ⟨h.1, h.2 0⟩

/-- Claim C7, witness at a concrete malformed block. -/
theorem claim_C7_w :
    extract "Hi <<<SUGGESTIONS: [oops]>>>" false false
      = ("Hi <<<SUGGESTIONS: [oops]>>>", []) :=
  claim_C7 "Hi <<<SUGGESTIONS: [oops]>>>" 3 25 "[oops]".data false rfl (Or.inl rfl)

/-- Claim C8, witness: stopping after fragments Hel and lo wor leaves
the message content Hello wor with streaming cleared. -/
theorem claim_C8_w :
    firstById 1 (step (Op.chunk 0 "ld") (runOps [Op.send "Hi" false, Op.chunk 0 "Hel",
        Op.chunk 0 "lo wor", Op.stop] init)).messages =
      some ⟨1, Role.model, "Hello wor", 0, false⟩ ∧
    (step (Op.chunk 0 "ld") (runOps [Op.send "Hi" false, Op.chunk 0 "Hel",
        Op.chunk 0 "lo wor", Op.stop] init)).pending = [] ∧
    step (Op.chunk 1 "x") (step (Op.chunk 0 "ld") (runOps [Op.send "Hi" false,
        Op.chunk 0 "Hel", Op.chunk 0 "lo wor", Op.stop] init)) =
      step (Op.chunk 0 "ld") (runOps [Op.send "Hi" false, Op.chunk 0 "Hel",
        Op.chunk 0 "lo wor", Op.stop] init) := by
  have h := claim_C8 (runOps [Op.send "Hi" false, Op.chunk 0 "Hel",
      Op.chunk 0 "lo wor", Op.stop] init)
    ⟨1, "Hello wor", "Hi"⟩ ⟨1, Role.model, "Hello wor", 0, true⟩ "ld" rfl rfl rfl
  exact ⟨h.1, h.2.1, h.2.2.2 1 "x"⟩

/-- Claim C9, witness: a failure after a partial fragment preserves the
fragment and sets the banner. -/
theorem claim_C9_w :
    (step (Op.streamError 0) (runOps [Op.send "q" false, Op.chunk 0 "par"] init)).error
      = some errBanner ∧
    (step (Op.streamError 0) (runOps [Op.send "q" false, Op.chunk 0 "par"] init)).isLoading
      = false ∧
    firstById 1 (step (Op.streamError 0)
        (runOps [Op.send "q" false, Op.chunk 0 "par"] init)).messages =
      some ⟨1, Role.model, "par", 0, false⟩ :=
  claim_C9 (runOps [Op.send "q" false, Op.chunk 0 "par"] init) 0
    ⟨1, "par", "q"⟩ ⟨1, Role.model, "par", 0, true⟩ rfl rfl

/-- Claim C10, counterexample.  After an ordinary completed send the
seeded history is still empty while the message list holds the exchange,
so the seeded history does not always equal the UI prefix. -/
theorem claim_C10_cex :
    (runOps [Op.send "a" false, Op.chunk 0 "r", Op.streamEnd 0] init).pending = [] ∧
    ¬ ((runOps [Op.send "a" false, Op.chunk 0 "r", Op.streamEnd 0] init).session
        = ((runOps [Op.send "a" false, Op.chunk 0 "r", Op.streamEnd 0] init).messages.map
            toEntry)) := by
  exact ⟨rfl, by decide⟩

/-- Claim C10 (amended), witness on a two-message conversation. -/
theorem claim_C10_amended_w :
    (step Op.regenerate (runOps [Op.send "x" false, Op.chunk 0 "y", Op.streamEnd 0]
        init)).session = [] ∧
    (((step Op.regenerate (runOps [Op.send "x" false, Op.chunk 0 "y", Op.streamEnd 0]
        init)).messages.dropLast).dropLast) = [] ∧
    (step (Op.edit 0 "T") (runOps [Op.send "x" false, Op.chunk 0 "y", Op.streamEnd 0]
        init)).session = [] ∧
    (((step (Op.edit 0 "T") (runOps [Op.send "x" false, Op.chunk 0 "y", Op.streamEnd 0]
        init)).messages.dropLast).dropLast) = [] := by
  have h1 := claim_C10_amended.1 (runOps [Op.send "x" false, Op.chunk 0 "y", Op.streamEnd 0] init)
    [] ⟨0, Role.user, "x", 0, false⟩ ⟨1, Role.model, "y", 0, false⟩ rfl rfl rfl rfl
  have h2 := claim_C10_amended.2 (runOps [Op.send "x" false, Op.chunk 0 "y", Op.streamEnd 0] init)
    0 0 "T" ⟨0, Role.user, "x", 0, false⟩ rfl rfl rfl
  exact ⟨h1.1, h1.2, h2.1, h2.2⟩

end GeminiFlow
